import Mathlib

/-!
Verification of `plonkish_backend/bin/hyperplonk_srs_generator.rs`
(summa-dev/plonkish): a shallow embedding of the HyperPlonk SRS generator
binary, together with theorems about the equality-basis tensor builder, the
ceremony-file randomness extraction, the capacity check and the SRS
serialization order.
-/

set_option autoImplicit false
set_option maxRecDepth 8000

namespace HyperplonkSrs

/-! ### The scalar field

The binary works over `<Bn256 as Engine>::Scalar`, the BN254 scalar field.
We embed it as `ZMod r` for the concrete modulus `r` of that field. -/

/-- Order of the BN254 (bn256) scalar field `Fr`. -/
def bnScalarModulus : Nat :=
  21888242871839275222246405745257275088548364400416034343698204186575808495617

/-- The scalar field `<Bn256 as Engine>::Scalar`. -/
abbrev Fr : Type := ZMod bnScalarModulus

/-! ### Equality-basis tensor builder (lines 79-99)

For each scalar `s_i` the loop takes the previous level `last_evals`,
allocates `evals` of twice the length, splits it as `(evals_lo, evals_hi)`,
sets `evals_hi[j] = s_i * last_evals[j]` and
`evals_lo[j] = last_evals[j] - evals_hi[j]`, and pushes the new level. -/

/-- One doubling step of the builder loop body: given scalar `s` and the
previous level `E`, produce `lo ++ hi` where `hi[j] = s * E[j]` and
`lo[j] = E[j] - hi[j]` (lines 85-96). -/
def nextLevel (s : Fr) (E : List Fr) : List Fr :=
  let hi := E.map (fun e => s * e)
  let lo := (E.zip hi).map (fun p => p.1 - p.2)
  lo ++ hi

/-- The `eqs` accumulation loop (lines 80-99): start from `[[1]]` and for
each scalar of `random_source`, in order, push `nextLevel` of the last
level. -/
def buildEqs (randomSource : List Fr) : List (List Fr) :=
  randomSource.foldl (fun eqs s => eqs ++ [nextLevel s (eqs.getLastD [])]) [[1]]

/-- Structured form of the same loop, convenient for induction: the list of
levels reached from a starting table `E`. -/
def levelsFrom (E : List Fr) : List Fr → List (List Fr)
  | [] => [E]
  | s :: rest => E :: levelsFrom (nextLevel s E) rest

/-- The single table reached from `E` after folding a list of scalars. -/
def levelFrom (E : List Fr) (l : List Fr) : List Fr :=
  l.foldl (fun T s => nextLevel s T) E

/-- Index of a boolean assignment, least-significant variable first:
variable `i` of the assignment is bit `i` of the index. -/
def bitIndex : List Bool → Nat
  | [] => 0
  | b :: bs => (if b then 1 else 0) + 2 * bitIndex bs

/-- The product `∏ i, (s_i if b_i == 1 else 1 - s_i)` from the spec, for a
scalar sequence and a boolean assignment aligned positionally. -/
def assignWeight : List Fr → List Bool → Fr
  | s :: ss, b :: bs => (if b then s else 1 - s) * assignWeight ss bs
  | _, _ => 1

/-! ### Basic lemmas about the builder -/

theorem nextLevel_eq_maps (s : Fr) (E : List Fr) :
    nextLevel s E = E.map (fun e => e - s * e) ++ E.map (fun e => s * e) := by
  have h : ∀ l : List Fr,
      (l.zip (l.map (fun e => s * e))).map (fun p => p.1 - p.2)
        = l.map (fun e => e - s * e) := by
    intro l
    induction l with
    | nil => rfl
    | cons e l ih => simp [ih]
  simp only [nextLevel]
  rw [h]

theorem nextLevel_length (s : Fr) (E : List Fr) :
    (nextLevel s E).length = 2 * E.length := by
  rw [nextLevel_eq_maps]
  simp [Nat.two_mul]

theorem buildEqs_eq_levelsFrom_aux (ss : List Fr) :
    ∀ (acc : List (List Fr)) (E : List Fr), acc.getLast? = some E →
      ss.foldl (fun eqs s => eqs ++ [nextLevel s (eqs.getLastD [])]) acc
        = acc.dropLast ++ levelsFrom E ss := by
  induction ss with
  | nil =>
    intro acc E hE
    simp only [List.foldl_nil, levelsFrom]
    exact (List.dropLast_append_getLast? E hE).symm
  | cons s rest ih =>
    intro acc E hE
    simp only [List.foldl_cons, levelsFrom]
    have hD : acc.getLastD [] = E := by
      cases acc with
      | nil => simp at hE
      | cons a l => simp [List.getLastD_eq_getLast?, hE]
    rw [hD]
    rw [ih (acc ++ [nextLevel s E]) (nextLevel s E) (by simp)]
    rw [List.dropLast_concat]
    have hacc : acc.dropLast ++ [E] = acc := List.dropLast_append_getLast? E hE
    calc acc ++ levelsFrom (nextLevel s E) rest
        = (acc.dropLast ++ [E]) ++ levelsFrom (nextLevel s E) rest := by rw [hacc]
      _ = acc.dropLast ++ E :: levelsFrom (nextLevel s E) rest := by simp

theorem buildEqs_eq_levelsFrom (ss : List Fr) :
    buildEqs ss = levelsFrom [1] ss := by
  have h := buildEqs_eq_levelsFrom_aux ss [[1]] [1] (by simp)
  simpa [buildEqs] using h

theorem levelsFrom_length (ss : List Fr) :
    ∀ E : List Fr, (levelsFrom E ss).length = ss.length + 1 := by
  induction ss with
  | nil => intro E; simp [levelsFrom]
  | cons s rest ih => intro E; simp [levelsFrom, ih]

theorem levelsFrom_getD (ss : List Fr) :
    ∀ (E : List Fr) (i : Nat), i ≤ ss.length →
      (levelsFrom E ss).getD i [] = levelFrom E (ss.take i) := by
  induction ss with
  | nil =>
    intro E i hi
    have hz : i = 0 := Nat.le_zero.mp hi
    subst hz
    simp [levelsFrom, levelFrom]
  | cons s rest ih =>
    intro E i hi
    cases i with
    | zero => simp [levelsFrom, levelFrom]
    | succ j =>
      simp only [levelsFrom, List.take_succ_cons, List.getD_cons_succ]
      rw [ih (nextLevel s E) j (by simpa using hi)]
      rfl

theorem levelFrom_append (E : List Fr) (l : List Fr) (s : Fr) :
    levelFrom E (l ++ [s]) = nextLevel s (levelFrom E l) := by
  simp [levelFrom]

theorem levelFrom_length (l : List Fr) :
    ∀ E : List Fr, (levelFrom E l).length = 2 ^ l.length * E.length := by
  induction l with
  | nil => intro E; simp [levelFrom]
  | cons s rest ih =>
    intro E
    have h : levelFrom E (s :: rest) = levelFrom (nextLevel s E) rest := rfl
    rw [h, ih, nextLevel_length, List.length_cons, pow_succ]
    ring

theorem getD_map_of_lt (f : Fr → Fr) (l : List Fr) (j : Nat) (hj : j < l.length) :
    (l.map f).getD j 0 = f (l.getD j 0) := by
  rw [List.getD_eq_getElem _ _ (by simpa using hj), List.getD_eq_getElem _ _ hj,
    List.getElem_map]

theorem nextLevel_getD_lo (s : Fr) (E : List Fr) (j : Nat) (hj : j < E.length) :
    (nextLevel s E).getD j 0 = E.getD j 0 - s * E.getD j 0 := by
  rw [nextLevel_eq_maps, List.getD_append _ _ _ _ (by simpa using hj),
    getD_map_of_lt _ _ _ hj]

theorem nextLevel_getD_hi (s : Fr) (E : List Fr) (j : Nat) (hj : j < E.length) :
    (nextLevel s E).getD (E.length + j) 0 = s * E.getD j 0 := by
  rw [nextLevel_eq_maps, List.getD_append_right _ _ _ _ (by simp)]
  have h : E.length + j - (E.map fun e => e - s * e).length = j := by simp
  rw [h, getD_map_of_lt _ _ _ hj]

theorem levelFrom_getD_bitIndex (l : List Fr) :
    ∀ (b : List Bool) (E : List Fr) (r : Nat), b.length = l.length → r < E.length →
      (levelFrom E l).getD (bitIndex b * E.length + r) 0
        = assignWeight l b * E.getD r 0 := by
  induction l with
  | nil =>
    intro b E r hb hr
    have hbn : b = [] := List.length_eq_zero.mp hb
    subst hbn
    simp [levelFrom, bitIndex, assignWeight]
  | cons s rest ih =>
    intro b E r hb hr
    cases b with
    | nil => simp at hb
    | cons b0 bs =>
      have hb' : bs.length = rest.length := by simpa using hb
      have hstep : levelFrom E (s :: rest) = levelFrom (nextLevel s E) rest := rfl
      rw [hstep]
      cases b0 with
      | false =>
        have hidx : bitIndex (false :: bs) * E.length + r
            = bitIndex bs * (nextLevel s E).length + r := by
          rw [nextLevel_length]
          simp [bitIndex]
          ring
        rw [hidx, ih bs (nextLevel s E) r hb' (by rw [nextLevel_length]; omega),
          nextLevel_getD_lo s E r hr]
        simp [assignWeight]
        ring
      | true =>
        have hidx : bitIndex (true :: bs) * E.length + r
            = bitIndex bs * (nextLevel s E).length + (E.length + r) := by
          rw [nextLevel_length]
          simp [bitIndex]
          ring
        rw [hidx, ih bs (nextLevel s E) (E.length + r) hb' (by rw [nextLevel_length]; omega),
          nextLevel_getD_hi s E r hr]
        simp [assignWeight]
        ring

theorem nextLevel_sum (s : Fr) (E : List Fr) :
    (nextLevel s E).sum = E.sum := by
  rw [nextLevel_eq_maps, List.sum_append]
  induction E with
  | nil => simp
  | cons e E ih =>
    simp only [List.map_cons, List.sum_cons]
    rw [← ih]
    ring

theorem levelFrom_sum (l : List Fr) :
    ∀ E : List Fr, (levelFrom E l).sum = E.sum := by
  induction l with
  | nil => intro E; rfl
  | cons s rest ih =>
    intro E
    have h : levelFrom E (s :: rest) = levelFrom (nextLevel s E) rest := rfl
    rw [h, ih, nextLevel_sum]

theorem buildEqs_getD (ss : List Fr) (i : Nat) (hi : i ≤ ss.length) :
    (buildEqs ss).getD i [] = levelFrom [1] (ss.take i) := by
  rw [buildEqs_eq_levelsFrom, levelsFrom_getD ss [1] i hi]

theorem buildEqs_getD_zero (ss : List Fr) :
    (buildEqs ss).getD 0 [] = [(1 : Fr)] := by
  rw [buildEqs_getD ss 0 (Nat.zero_le _)]
  rfl

theorem buildEqs_level_length (ss : List Fr) (i : Nat) (hi : i ≤ ss.length) :
    ((buildEqs ss).getD i []).length = 2 ^ i := by
  rw [buildEqs_getD ss i hi, levelFrom_length]
  simp [Nat.min_eq_left hi]

theorem take_succ_of_lt (ss : List Fr) (i : Nat) (hi : i < ss.length) :
    ss.take (i + 1) = ss.take i ++ [ss.getD i 0] := by
  rw [List.take_succ, List.getElem?_eq_getElem hi, List.getD_eq_getElem _ _ hi]
  rfl

/-! ### Claim theorems about the tensor builder -/

/-- C1: the equality-basis builder starts from the level-0 table `[1]` and,
for every level `i` below `num_vars`, given the level-`i` table `E` of length
`2 ^ i` and scalar `s_i`, produces the level-`(i+1)` table as the
concatenation `lo ++ hi` of two vectors of length `2 ^ i`, where for every
index `j < 2 ^ i`, `hi[j] = s_i * E[j]` and `lo[j] = E[j] - hi[j]`. -/
theorem spec_C1_builder_level_step (ss : List Fr) (i : Nat) (hilt : i < ss.length) :
    (buildEqs ss).getD 0 [] = [(1 : Fr)] ∧
    ((buildEqs ss).getD i []).length = 2 ^ i ∧
    ∃ lo hi : List Fr,
      (buildEqs ss).getD (i + 1) [] = lo ++ hi ∧
      lo.length = 2 ^ i ∧ hi.length = 2 ^ i ∧
      ∀ j, j < 2 ^ i →
        hi.getD j 0 = ss.getD i 0 * ((buildEqs ss).getD i []).getD j 0 ∧
        lo.getD j 0 = ((buildEqs ss).getD i []).getD j 0 - hi.getD j 0 := by
  refine ⟨buildEqs_getD_zero ss, buildEqs_level_length ss i (Nat.le_of_lt hilt), ?_⟩
  have hEi : (buildEqs ss).getD i [] = levelFrom [1] (ss.take i) :=
    buildEqs_getD ss i (Nat.le_of_lt hilt)
  have hlen : (levelFrom [1] (ss.take i)).length = 2 ^ i := by
    rw [← hEi]; exact buildEqs_level_length ss i (Nat.le_of_lt hilt)
  have hEsucc : (buildEqs ss).getD (i + 1) []
      = nextLevel (ss.getD i 0) (levelFrom [1] (ss.take i)) := by
    rw [buildEqs_getD ss (i + 1) hilt, take_succ_of_lt ss i hilt, levelFrom_append]
  refine ⟨(levelFrom [1] (ss.take i)).map (fun e => e - ss.getD i 0 * e),
    (levelFrom [1] (ss.take i)).map (fun e => ss.getD i 0 * e), ?_, ?_, ?_, ?_⟩
  · rw [hEsucc, nextLevel_eq_maps]
  · simp [hlen]
  · simp [hlen]
  · intro j hj
    have hj' : j < (levelFrom [1] (ss.take i)).length := by rw [hlen]; exact hj
    constructor
    · rw [getD_map_of_lt _ _ _ hj', hEi]
    · rw [getD_map_of_lt _ _ _ hj', getD_map_of_lt _ _ _ hj', hEi]

/-- Witness for C1 at `ss = [3, 5]`, `i = 1`. -/
theorem spec_C1_builder_level_step_witness :
    ((buildEqs [(3 : Fr), 5]).getD 1 []).length = 2 ^ 1 :=
  (spec_C1_builder_level_step [(3 : Fr), 5] 1 (by decide)).2.1

/-- C2: the final level table has length `2 ^ num_vars` and, for every
boolean assignment `b` of length `num_vars`, the entry at the index whose
bit `i` is `b i` (the bit order induced by the lo/hi construction) equals
`∏ i, (s_i if b_i == 1 else 1 - s_i)`. -/
theorem spec_C2_final_level_entries (ss : List Fr) (b : List Bool)
    (hb : b.length = ss.length) :
    ((buildEqs ss).getD ss.length []).length = 2 ^ ss.length ∧
    ((buildEqs ss).getD ss.length []).getD (bitIndex b) 0 = assignWeight ss b := by
  refine ⟨buildEqs_level_length ss ss.length (Nat.le_refl _), ?_⟩
  rw [buildEqs_getD ss ss.length (Nat.le_refl _), List.take_length]
  have h := levelFrom_getD_bitIndex ss b [1] 0 hb (by simp)
  simpa using h

/-- Witness for C2 at `ss = [3, 5]`, `b = [true, false]` (index 1):
entry = `3 * (1 - 5)`. -/
theorem spec_C2_final_level_entries_witness :
    ((buildEqs [(3 : Fr), 5]).getD 2 []).length = 2 ^ 2 ∧
    ((buildEqs [(3 : Fr), 5]).getD 2 []).getD (bitIndex [true, false]) 0
      = assignWeight [(3 : Fr), 5] [true, false] :=
  spec_C2_final_level_entries [(3 : Fr), 5] [true, false] (by decide)

/-- C6: for every scalar sequence, the level-0 table equals `[1]` and each
level `i ≤ num_vars` of the equality table sums to `1` (partition of
unity). -/
theorem spec_C6_partition_of_unity (ss : List Fr) (i : Nat) (hile : i ≤ ss.length) :
    (buildEqs ss).getD 0 [] = [(1 : Fr)] ∧
    ((buildEqs ss).getD i []).sum = 1 := by
  refine ⟨buildEqs_getD_zero ss, ?_⟩
  rw [buildEqs_getD ss i hile, levelFrom_sum]
  simp

/-- Witness for C6 at `ss = [3, 5]`, `i = 2`. -/
theorem spec_C6_partition_of_unity_witness :
    (buildEqs [(3 : Fr), 5]).getD 0 [] = [(1 : Fr)] ∧
    ((buildEqs [(3 : Fr), 5]).getD 2 []).sum = 1 :=
  spec_C6_partition_of_unity [(3 : Fr), 5] 2 (by decide)

/-! ### Byte-level model of `main` (file layout, argument handling, I/O) -/

/-- `HEADER_SIZE_OFFSET` (line 22). -/
def HEADER_SIZE_OFFSET : Nat := 16

/-- `HEADER_OFFSET` (line 23). -/
def HEADER_OFFSET : Nat := HEADER_SIZE_OFFSET + 8

/-- Little-endian value of a byte list, as read by
`read_u64::<LittleEndian>` and `read_u32::<LittleEndian>` (lines 41, 45). -/
def leValue (bytes : List Nat) : Nat :=
  bytes.foldr (fun b acc => b + 256 * acc) 0

/-- Reading `len` bytes at absolute offset `off` of the source file; fails
(like `read_u64` / `read_u32` / `read_exact`) when the file is too short. -/
def readBytes (file : List Nat) (off len : Nat) : Option (List Nat) :=
  if off + len ≤ file.length then some ((file.drop off).take len) else none

/-- Canonical items written to the destination file (lines 126-135). A
group point is represented by its coefficient with respect to the group's
fixed generator (see `fixedBaseMsm`). -/
inductive WriteItem where
  | u32le (n : Nat)
  | g1pt (s : Fr)
  | g2pt (s : Fr)
deriving DecidableEq

/-- Observable file-system actions of `main`, in program order. -/
inductive TraceEvent where
  | openRead (path : String)
  | readAt (off len : Nat)
  | createFile (path : String)
  | writeItem (w : WriteItem)
deriving DecidableEq

/-- Outcome of a run of `main`: an abort raised by `expect` / `unwrap` /
`assert` (Rust panics), or normal completion. Both carry the trace of
file-system events performed up to that point. -/
inductive RunResult where
  | panicked (msg : String) (events : List TraceEvent)
  | success (events : List TraceEvent)
deriving DecidableEq

/-- The file-system events a run performed. -/
def RunResult.events : RunResult → List TraceEvent
  | .panicked _ evs => evs
  | .success evs => evs

/-- The file, if any, that an event created. -/
def TraceEvent.created? : TraceEvent → Option String
  | .createFile p => some p
  | _ => none

/-- The files a run created. -/
def RunResult.createdFiles (r : RunResult) : List String :=
  r.events.filterMap TraceEvent.created?

/-- The record-reading loop (lines 60-63): `cnt` consecutive `read_exact`
calls of 32 bytes each, aborting at the first failure. Returns the read
events attempted and the records when every read succeeds. -/
def readRecords (file : List Nat) (off : Nat) :
    Nat → List TraceEvent × Option (List (List Nat))
  | 0 => ([], some [])
  | cnt + 1 =>
    match readBytes file off 32 with
    | none => ([TraceEvent.readAt off 32], none)
    | some c =>
      match readRecords file (off + 32) cnt with
      | (evs, none) => (TraceEvent.readAt off 32 :: evs, none)
      | (evs, some cs) => (TraceEvent.readAt off 32 :: evs, some (c :: cs))

/-- `<Bn256 as Engine>::Scalar::from_repr` on a 32-byte little-endian
representation: succeeds exactly on canonical representatives, i.e. when
the represented integer is below the field modulus. -/
def fromRepr (bytes : List Nat) : Option Fr :=
  if leValue bytes < bnScalarModulus then some ((leValue bytes : Nat) : Fr)
  else none

/-- A `u32` product with release-profile semantics: the result wraps
modulo `2 ^ 32` (a debug build would abort on overflow instead). -/
def rustMulU32 (a b : Nat) : Nat := a * b % 2 ^ 32

/-- The selection loop (lines 67-73): for `i` in `0..(2 * num_vars)` —
a `u32` product, so it wraps for `num_vars ≥ 2 ^ 31` — take `reprs[i]`
and, when `i` is even, decode it with `from_repr` and push the scalar.
`none` stands for the `unwrap` abort on a non-canonical record (or an
out-of-range index, which the capacity assertion rules out). -/
def decodeRandomSource (reprs : List (List Nat)) (numVars : Nat) :
    Option (List Fr) :=
  ((List.range (rustMulU32 2 numVars)).filter (fun i => i % 2 == 0)).mapM
    (fun i => (reprs.get? i).bind fromRepr)

theorem rustMulU32_two_eq (numVars : Nat) (h : numVars < 2 ^ 31) :
    rustMulU32 2 numVars = 2 * numVars := by
  unfold rustMulU32
  exact Nat.mod_eq_of_lt (by omega)

/-- `str::parse::<u32>` (line 33): an optional leading plus sign, one or
more decimal digits, value below `2 ^ 32`. -/
def parseU32 (s : String) : Option Nat :=
  let ds := match s.data with
    | '+' :: rest => rest
    | l => l
  if ds ≠ [] ∧ ds.all Char.isDigit then
    let v := ds.foldl (fun acc c => 10 * acc + (c.toNat - 48)) 0
    if v < 2 ^ 32 then some v else none
  else none

/-- The capacity computation `let n = 1 << k` (line 49) on `u32`, with
release-profile semantics: the shift amount is masked to the bit width.
(A debug build would abort for `k ≥ 32`; under neither semantics is the
mathematical `2 ^ k` used once `k` reaches 32.) -/
def rustShlU32 (a k : Nat) : Nat := (a <<< (k % 32)) % 2 ^ 32

/-- Modelled from the spec: `window_size`, `window_table`, `fixed_base_msm`
and `batch_projective_to_affine` (crate module `util::arithmetic`, outside
this tree) together map each scalar `s` of a batch to the affine point
`s * generator` (spec §4.3), preserving batch order. Points being
represented by their coefficient with respect to the fixed generator, the
engine is the identity on the scalar batch. -/
def fixedBaseMsm (scalars : List Fr) : List Fr := scalars

/-- The regrouping of the flat MSM output back into levels via
`eqs.drain(..)` and `(0..num_vars + 1).map(|idx| eqs.take(1 << idx))`
(lines 111-114): level `idx` takes the next `2 ^ idx` points, hence starts
at flat offset `2 ^ idx - 1`. -/
def regroupLevels (pts : List Fr) (numVars : Nat) : List (List Fr) :=
  (List.range (numVars + 1)).map (fun idx => (pts.drop (2 ^ idx - 1)).take (2 ^ idx))

/-- The sequence of items written to the destination file (lines 126-135):
`num_vars` as a 4-byte little-endian integer, the `g1` generator, the
flattened per-level equality points, the `g2` generator, then the power
points in `random_source` order. -/
def srsTrace (numVars : Nat) (randomSource : List Fr) : List WriteItem :=
  let eqPts := regroupLevels (fixedBaseMsm (buildEqs randomSource).flatten) numVars
  let ssPts := fixedBaseMsm randomSource
  WriteItem.u32le numVars :: WriteItem.g1pt 1 ::
    (eqPts.flatten.map WriteItem.g1pt
      ++ WriteItem.g2pt 1 :: ssPts.map WriteItem.g2pt)

/-- The whole of `main` (lines 25-138), over a pure file system `fs`
mapping paths to byte contents and the argument list `args` (position 0 is
the program name). `RunResult.panicked` stands for the aborts raised by
`expect`, `unwrap` and the capacity assertion, in source order: the two
argument `expect`s; `File::open`; the header-size and `k` reads; the
`desired_k` `unwrap` (only reached after those reads); the capacity
assertion; the record-read loop; scalar decoding; then creation and
writing of the destination file. -/
def runMain (fs : String → Option (List Nat)) (args : List String) : RunResult :=
  match args.get? 1 with
  | none => .panicked "Please specify source file path to convert" []
  | some src =>
  match args.get? 2 with
  | none =>
      .panicked "Please specify destination file path prefix (will be appended with suffix k)" []
  | some dst =>
  let desiredK := (args.get? 3).bind parseU32
  match fs src with
  | none => .panicked "Couldn't open file" [TraceEvent.openRead src]
  | some file =>
  match readBytes file HEADER_SIZE_OFFSET 8 with
  | none =>
      .panicked "called `Result::unwrap()` on an `Err` value"
        [TraceEvent.openRead src, TraceEvent.readAt HEADER_SIZE_OFFSET 8]
  | some hsBytes =>
  let headerSize := leValue hsBytes
  let kOffset := HEADER_OFFSET + headerSize - 8
  match readBytes file kOffset 4 with
  | none =>
      .panicked "called `Result::unwrap()` on an `Err` value"
        [TraceEvent.openRead src, TraceEvent.readAt HEADER_SIZE_OFFSET 8,
          TraceEvent.readAt kOffset 4]
  | some kBytes =>
  let k := leValue kBytes
  let n := rustShlU32 1 k
  let ev2 := [TraceEvent.openRead src, TraceEvent.readAt HEADER_SIZE_OFFSET 8,
    TraceEvent.readAt kOffset 4]
  match desiredK with
  | none => .panicked "called `Option::unwrap()` on a `None` value" ev2
  | some numVars =>
  if n < numVars then
    .panicked ("Source file size not enough for desired k: Some(" ++ toString numVars ++ ")")
      ev2
  else
  match readRecords file (HEADER_OFFSET + headerSize + 12) (2 * n) with
  | (evs, none) => .panicked "called `Result::unwrap()` on an `Err` value" (ev2 ++ evs)
  | (evs, some reprs) =>
  match decodeRandomSource reprs numVars with
  | none => .panicked "called `CtOption::unwrap()` on a `None` value" (ev2 ++ evs)
  | some randomSource =>
  .success (ev2 ++ evs
    ++ TraceEvent.createFile (dst ++ toString numVars)
      :: (srsTrace numVars randomSource).map TraceEvent.writeItem)

/-- The panic message of a run, when it aborted. -/
def RunResult.panicMsg : RunResult → Option String
  | .panicked m _ => some m
  | .success _ => none

/-! ### Reduction lemmas for `runMain` -/

theorem runMain_no_src (fs : String → Option (List Nat)) (args : List String)
    (h1 : args.get? 1 = none) :
    runMain fs args = .panicked "Please specify source file path to convert" [] := by
  simp only [runMain, h1]

theorem runMain_no_dst (fs : String → Option (List Nat)) (args : List String)
    (src : String) (h1 : args.get? 1 = some src) (h2 : args.get? 2 = none) :
    runMain fs args
      = .panicked "Please specify destination file path prefix (will be appended with suffix k)"
          [] := by
  simp only [runMain, h1, h2]

theorem runMain_open_fail (fs : String → Option (List Nat)) (args : List String)
    (src dst : String) (h1 : args.get? 1 = some src) (h2 : args.get? 2 = some dst)
    (hf : fs src = none) :
    runMain fs args = .panicked "Couldn't open file" [TraceEvent.openRead src] := by
  simp only [runMain, h1, h2, hf]

theorem runMain_arg3_fail (fs : String → Option (List Nat)) (args : List String)
    (src dst : String) (file hsBytes kBytes : List Nat)
    (h1 : args.get? 1 = some src) (h2 : args.get? 2 = some dst)
    (h3 : (args.get? 3).bind parseU32 = none)
    (hf : fs src = some file)
    (hh : readBytes file HEADER_SIZE_OFFSET 8 = some hsBytes)
    (hkb : readBytes file (HEADER_OFFSET + leValue hsBytes - 8) 4 = some kBytes) :
    runMain fs args
      = .panicked "called `Option::unwrap()` on a `None` value"
          [TraceEvent.openRead src, TraceEvent.readAt HEADER_SIZE_OFFSET 8,
            TraceEvent.readAt (HEADER_OFFSET + leValue hsBytes - 8) 4] := by
  simp only [runMain, h1, h2, h3, hf, hh, hkb]

theorem runMain_capacity_fail (fs : String → Option (List Nat)) (args : List String)
    (src dst s3 : String) (file hsBytes kBytes : List Nat) (numVars : Nat)
    (h1 : args.get? 1 = some src) (h2 : args.get? 2 = some dst)
    (h3 : args.get? 3 = some s3) (hp : parseU32 s3 = some numVars)
    (hf : fs src = some file)
    (hh : readBytes file HEADER_SIZE_OFFSET 8 = some hsBytes)
    (hkb : readBytes file (HEADER_OFFSET + leValue hsBytes - 8) 4 = some kBytes)
    (hcap : rustShlU32 1 (leValue kBytes) < numVars) :
    runMain fs args
      = .panicked
          ("Source file size not enough for desired k: Some(" ++ toString numVars ++ ")")
          [TraceEvent.openRead src, TraceEvent.readAt HEADER_SIZE_OFFSET 8,
            TraceEvent.readAt (HEADER_OFFSET + leValue hsBytes - 8) 4] := by
  simp only [runMain, h1, h2, h3, hp, hf, hh, hkb, Option.some_bind, if_pos hcap]

theorem runMain_records_fail (fs : String → Option (List Nat)) (args : List String)
    (src dst s3 : String) (file hsBytes kBytes : List Nat) (numVars : Nat)
    (recEvs : List TraceEvent)
    (h1 : args.get? 1 = some src) (h2 : args.get? 2 = some dst)
    (h3 : args.get? 3 = some s3) (hp : parseU32 s3 = some numVars)
    (hf : fs src = some file)
    (hh : readBytes file HEADER_SIZE_OFFSET 8 = some hsBytes)
    (hkb : readBytes file (HEADER_OFFSET + leValue hsBytes - 8) 4 = some kBytes)
    (hcap : ¬ rustShlU32 1 (leValue kBytes) < numVars)
    (hrec : readRecords file (HEADER_OFFSET + leValue hsBytes + 12)
        (2 * rustShlU32 1 (leValue kBytes)) = (recEvs, none)) :
    runMain fs args
      = .panicked "called `Result::unwrap()` on an `Err` value"
          ([TraceEvent.openRead src, TraceEvent.readAt HEADER_SIZE_OFFSET 8,
            TraceEvent.readAt (HEADER_OFFSET + leValue hsBytes - 8) 4] ++ recEvs) := by
  simp only [runMain, h1, h2, h3, hp, hf, hh, hkb, Option.some_bind, if_neg hcap, hrec]

theorem runMain_success_eq (fs : String → Option (List Nat)) (args : List String)
    (src dst s3 : String) (file hsBytes kBytes : List Nat) (numVars : Nat)
    (recEvs : List TraceEvent) (reprs : List (List Nat)) (randomSource : List Fr)
    (h1 : args.get? 1 = some src) (h2 : args.get? 2 = some dst)
    (h3 : args.get? 3 = some s3) (hp : parseU32 s3 = some numVars)
    (hf : fs src = some file)
    (hh : readBytes file HEADER_SIZE_OFFSET 8 = some hsBytes)
    (hkb : readBytes file (HEADER_OFFSET + leValue hsBytes - 8) 4 = some kBytes)
    (hcap : ¬ rustShlU32 1 (leValue kBytes) < numVars)
    (hrec : readRecords file (HEADER_OFFSET + leValue hsBytes + 12)
        (2 * rustShlU32 1 (leValue kBytes)) = (recEvs, some reprs))
    (hdec : decodeRandomSource reprs numVars = some randomSource) :
    runMain fs args
      = .success
          ([TraceEvent.openRead src, TraceEvent.readAt HEADER_SIZE_OFFSET 8,
            TraceEvent.readAt (HEADER_OFFSET + leValue hsBytes - 8) 4]
            ++ recEvs
            ++ TraceEvent.createFile (dst ++ toString numVars)
              :: (srsTrace numVars randomSource).map TraceEvent.writeItem) := by
  simp only [runMain, h1, h2, h3, hp, hf, hh, hkb, Option.some_bind, if_neg hcap, hrec, hdec]

/-! ### Characterization of the record reads and the scalar selection -/

theorem map_range_shift {α : Type} (g : Nat → α) (c : Nat) :
    (List.range (c + 1)).map g = g 0 :: (List.range c).map (fun i => g (i + 1)) := by
  rw [List.range_succ_eq_map, List.map_cons, List.map_map]
  rfl

theorem readRecords_success (file : List Nat) :
    ∀ (cnt off : Nat), off + 32 * cnt ≤ file.length →
      readRecords file off cnt
        = ((List.range cnt).map (fun i => TraceEvent.readAt (off + 32 * i) 32),
            some ((List.range cnt).map (fun i => (file.drop (off + 32 * i)).take 32))) := by
  intro cnt
  induction cnt with
  | zero => intro off h; simp [readRecords]
  | succ c ih =>
    intro off h
    have hrb : readBytes file off 32 = some ((file.drop off).take 32) := by
      unfold readBytes
      rw [if_pos (by omega)]
    have hrec := ih (off + 32) (by omega)
    simp only [readRecords, hrb, hrec]
    rw [map_range_shift (fun i => TraceEvent.readAt (off + 32 * i) 32) c,
      map_range_shift (fun i => (file.drop (off + 32 * i)).take 32) c]
    have he1 : (fun i => TraceEvent.readAt (off + 32 * (i + 1)) 32)
        = (fun i => TraceEvent.readAt (off + 32 + 32 * i) 32) := by
      funext i
      congr 1
      omega
    have he2 : (fun i => (file.drop (off + 32 * (i + 1))).take 32)
        = (fun i => (file.drop (off + 32 + 32 * i)).take 32) := by
      funext i
      congr 2
      omega
    rw [he1, he2]
    simp

theorem readRecords_fail (file : List Nat) :
    ∀ (cnt off : Nat), 0 < cnt → file.length < off + 32 * cnt →
      (readRecords file off cnt).2 = none := by
  intro cnt
  induction cnt with
  | zero => intro off h; omega
  | succ c ih =>
    intro off _ hshort
    by_cases hrb : off + 32 ≤ file.length
    · have hrb' : readBytes file off 32 = some ((file.drop off).take 32) := by
        unfold readBytes
        rw [if_pos hrb]
      have hc : 0 < c := by
        by_contra hc0
        have : c = 0 := by omega
        omega
      have htail := ih (off + 32) hc (by omega)
      simp only [readRecords, hrb']
      cases hr : readRecords file (off + 32) c with
      | mk evs res =>
        rw [hr] at htail
        simp at htail
        subst htail
        simp
    · have hrb' : readBytes file off 32 = none := by
        unfold readBytes
        rw [if_neg (by omega)]
      simp [readRecords, hrb']

theorem mapM_option_map {α β : Type} (f : α → Option β) (g : α → β) :
    ∀ l : List α, (∀ a ∈ l, f a = some (g a)) → l.mapM f = some (l.map g) := by
  intro l
  induction l with
  | nil => intro _; rfl
  | cons a l ih =>
    intro h
    rw [List.mapM_cons, h a (List.mem_cons_self a l), ih (fun b hb => h b (List.mem_cons_of_mem a hb))]
    rfl

theorem range_two_mul_filter_even :
    ∀ n : Nat, (List.range (2 * n)).filter (fun i => i % 2 == 0)
      = (List.range n).map (fun j => 2 * j) := by
  intro n
  induction n with
  | zero => rfl
  | succ m ih =>
    have h2 : 2 * (m + 1) = (2 * m + 1) + 1 := by omega
    have he : (2 * m) % 2 = 0 := by omega
    have ho : (2 * m + 1) % 2 = 1 := by omega
    rw [h2, List.range_succ, List.range_succ, List.filter_append, List.filter_append, ih,
      List.range_succ, List.map_append]
    simp [he, ho]

theorem decodeRandomSource_eq (reprs : List (List Nat)) (numVars : Nat) (d : Nat → Fr)
    (hnv : numVars < 2 ^ 31)
    (hd : ∀ j, j < numVars → (reprs.get? (2 * j)).bind fromRepr = some (d j)) :
    decodeRandomSource reprs numVars = some ((List.range numVars).map d) := by
  unfold decodeRandomSource
  rw [rustMulU32_two_eq numVars hnv, range_two_mul_filter_even]
  have hmap := mapM_option_map (fun i => (reprs.get? i).bind fromRepr)
    (fun i => d (i / 2)) ((List.range numVars).map (fun j => 2 * j)) ?_
  · rw [hmap, List.map_map]
    have hfun : ((fun i => d (i / 2)) ∘ fun j => 2 * j) = d := by
      funext j
      simp only [Function.comp]
      congr 1
      omega
    rw [hfun]
  · intro a ha
    obtain ⟨j, hj, rfl⟩ := List.mem_map.mp ha
    have hjlt : j < numVars := List.mem_range.mp hj
    have hdj := hd j hjlt
    have hdiv : 2 * j / 2 = j := by omega
    simp only [hdiv]
    exact hdj

theorem get?_map_range {α : Type} (f : Nat → α) (n i : Nat) (h : i < n) :
    ((List.range n).map f).get? i = some (f i) := by
  rw [List.get?_eq_getElem?, List.getElem?_map, List.getElem?_range h]
  rfl

theorem mapM_option_length {α β : Type} (f : α → Option β) :
    ∀ (l : List α) (l' : List β), l.mapM f = some l' → l'.length = l.length := by
  intro l
  induction l with
  | nil =>
    intro l' h
    simp only [List.mapM_nil, pure] at h
    cases h
    rfl
  | cons a l ih =>
    intro l' h
    rw [List.mapM_cons] at h
    cases hfa : f a with
    | none => rw [hfa] at h; simp at h
    | some b =>
      rw [hfa] at h
      cases hml : l.mapM f with
      | none => rw [hml] at h; simp at h
      | some bs =>
        rw [hml] at h
        simp only [Option.some_bind, Option.bind_some, pure] at h
        cases h
        simp [ih bs hml]

theorem decodeRandomSource_length (reprs : List (List Nat)) (numVars : Nat)
    (rs : List Fr) (hnv : numVars < 2 ^ 31)
    (h : decodeRandomSource reprs numVars = some rs) :
    rs.length = numVars := by
  unfold decodeRandomSource at h
  rw [rustMulU32_two_eq numVars hnv] at h
  have hl := mapM_option_length _ _ _ h
  rw [range_two_mul_filter_even] at hl
  simpa using hl

theorem readRecords_events_created (file : List Nat) :
    ∀ (cnt off : Nat) (e : TraceEvent), e ∈ (readRecords file off cnt).1 →
      e.created? = none := by
  intro cnt
  induction cnt with
  | zero => intro off e he; simp [readRecords] at he
  | succ c ih =>
    intro off e he
    unfold readRecords at he
    cases hrb : readBytes file off 32 with
    | none =>
      rw [hrb] at he
      simp at he
      subst he
      rfl
    | some chunk =>
      rw [hrb] at he
      cases hr : readRecords file (off + 32) c with
      | mk evs res =>
        rw [hr] at he
        have hin : e = TraceEvent.readAt off 32 ∨ e ∈ evs := by
          cases res with
          | none => simpa using he
          | some cs => simpa using he
        rcases hin with rfl | hin
        · rfl
        · exact ih (off + 32) e (by rw [hr]; exact hin)

/-! ### Flat layout of the equality table (for the serializer) -/

theorem levelsFrom_flatten_length (ss : List Fr) :
    ∀ E : List Fr, (levelsFrom E ss).flatten.length + E.length
      = 2 ^ (ss.length + 1) * E.length := by
  induction ss with
  | nil =>
    intro E
    show (List.flatten [E]).length + E.length = 2 ^ (0 + 1) * E.length
    simp
    omega
  | cons s rest ih =>
    intro E
    simp only [levelsFrom, List.flatten_cons, List.length_append, List.length_cons]
    have h := ih (nextLevel s E)
    rw [nextLevel_length] at h
    have h2 : 2 ^ (rest.length + 1 + 1) * E.length
        = 2 ^ (rest.length + 1) * (2 * E.length) := by ring
    rw [h2]
    omega

theorem buildEqs_flatten_length (ss : List Fr) :
    (buildEqs ss).flatten.length = 2 ^ (ss.length + 1) - 1 := by
  rw [buildEqs_eq_levelsFrom]
  have h := levelsFrom_flatten_length ss [1]
  simp only [List.length_singleton, mul_one] at h
  omega

theorem levelsFrom_flatten_slice (ss : List Fr) :
    ∀ (E : List Fr) (i : Nat), i ≤ ss.length →
      ((levelsFrom E ss).flatten.drop ((2 ^ i - 1) * E.length)).take (2 ^ i * E.length)
        = (levelsFrom E ss).getD i [] := by
  induction ss with
  | nil =>
    intro E i hi
    have h0 : i = 0 := by simpa using hi
    subst h0
    simp [levelsFrom]
  | cons s rest ih =>
    intro E i hi
    cases i with
    | zero =>
      simp only [levelsFrom, List.flatten_cons, pow_zero, Nat.sub_self, Nat.zero_mul,
        List.drop_zero, one_mul, List.getD_cons_zero]
      exact List.take_left E _
    | succ j =>
      have hone : 1 ≤ 2 ^ j := Nat.one_le_two_pow
      obtain ⟨v, hv⟩ : ∃ v, 2 ^ j = v + 1 := ⟨2 ^ j - 1, by omega⟩
      have hdropEq : (2 ^ (j + 1) - 1) * E.length
          = E.length + (2 ^ j - 1) * (nextLevel s E).length := by
        rw [nextLevel_length, pow_succ, hv]
        have e1 : (v + 1) * 2 - 1 = 2 * v + 1 := by omega
        have e2 : v + 1 - 1 = v := by omega
        rw [e1, e2]
        ring
      have htakeEq : 2 ^ (j + 1) * E.length = 2 ^ j * (nextLevel s E).length := by
        rw [nextLevel_length, pow_succ]
        ring
      simp only [levelsFrom, List.flatten_cons, List.getD_cons_succ]
      rw [hdropEq, List.drop_append, htakeEq]
      exact ih (nextLevel s E) j (by simpa using hi)

theorem buildEqs_flatten_slice (ss : List Fr) (i : Nat) (hi : i ≤ ss.length) :
    ((buildEqs ss).flatten.drop (2 ^ i - 1)).take (2 ^ i)
      = (buildEqs ss).getD i [] := by
  rw [buildEqs_eq_levelsFrom]
  have h := levelsFrom_flatten_slice ss [1] i hi
  simpa using h

theorem regroupLevels_flatten (pts : List Fr) :
    ∀ n : Nat, (regroupLevels pts n).flatten = pts.take (2 ^ (n + 1) - 1) := by
  intro n
  induction n with
  | zero => simp [regroupLevels, List.range_succ]
  | succ m ih =>
    unfold regroupLevels at ih ⊢
    rw [List.range_succ, List.map_append, List.flatten_append, ih]
    simp only [List.map_cons, List.map_nil, List.flatten_cons, List.flatten_nil,
      List.append_nil]
    rw [← List.take_add]
    congr 1
    have hp : 2 ^ (m + 1 + 1) = 2 * 2 ^ (m + 1) := by rw [pow_succ]; ring
    have hone : 1 ≤ 2 ^ (m + 1) := Nat.one_le_two_pow
    omega

theorem srsTrace_eq (numVars : Nat) (rs : List Fr) (h : rs.length = numVars) :
    srsTrace numVars rs
      = WriteItem.u32le numVars :: WriteItem.g1pt 1 ::
          ((buildEqs rs).flatten.map WriteItem.g1pt
            ++ WriteItem.g2pt 1 :: rs.map WriteItem.g2pt) := by
  simp only [srsTrace, fixedBaseMsm]
  rw [regroupLevels_flatten]
  have hlen : (buildEqs rs).flatten.length = 2 ^ (numVars + 1) - 1 := by
    rw [buildEqs_flatten_length, h]
  rw [← hlen, List.take_length]

/-! ### Concrete inputs used by witnesses and counterexamples -/

/-- A minimal well-formed ceremony file: header size 8, `k = 0`, and the two
32-byte coordinate records of the single recorded point (x-coordinate 7). -/
def fileA : List Nat :=
  List.replicate 16 0 ++ [8, 0, 0, 0, 0, 0, 0, 0] ++ [0, 0, 0, 0]
    ++ List.replicate 16 0 ++ (7 :: List.replicate 31 0) ++ List.replicate 32 0

/-- A file system holding only `fileA` under the path `srs`. -/
def fsA : String → Option (List Nat) := fun p => if p = "srs" then some fileA else none

/-- A ceremony file declaring `k = 1` (a pool of 2 points, 4 coordinate
records, 128 bytes) whose record region holds only 80 bytes. -/
def fileB : List Nat :=
  List.replicate 16 0 ++ [8, 0, 0, 0, 0, 0, 0, 0] ++ [1, 0, 0, 0]
    ++ List.replicate 16 0 ++ List.replicate 80 7

/-- A file system holding only `fileB` under the path `srs`. -/
def fsB : String → Option (List Nat) := fun p => if p = "srs" then some fileB else none

theorem rustShlU32_one_eq_pow (k : Nat) (hk : k < 32) : rustShlU32 1 k = 2 ^ k := by
  unfold rustShlU32
  rw [Nat.mod_eq_of_lt hk, Nat.shiftLeft_eq, one_mul]
  exact Nat.mod_eq_of_lt (Nat.pow_lt_pow_right (by norm_num) hk)

theorem kOffset_eq (H : Nat) : HEADER_OFFSET + H - 8 = 16 + H := by
  unfold HEADER_OFFSET HEADER_SIZE_OFFSET
  omega

/-! ### Claim theorems about the capacity computation and the CLI surface -/

/-- C10 counterexample: at `k = 32` the capacity the program compares is
`1 << (32 % 32) = 1`, not `2 ^ 32` reduced modulo `2 ^ 32`, which is `0`. -/
theorem spec_C10_counterexample :
    rustShlU32 1 32 = 1 ∧ rustShlU32 1 32 ≠ 2 ^ 32 % 2 ^ 32 := by decide

/-- C10 (amended): the capacity is computed with the masked 32-bit shift,
so for every `k ≥ 32` the compared capacity is `2 ^ (k % 32)` — neither
`2 ^ k` reduced modulo `2 ^ 32` (which is `0`) nor the mathematical
`2 ^ k`. -/
theorem spec_C10_masked_shift (k : Nat) (hk : 32 ≤ k) :
    rustShlU32 1 k = 2 ^ (k % 32) ∧
    rustShlU32 1 k ≠ 2 ^ k % 2 ^ 32 ∧
    rustShlU32 1 k ≠ 2 ^ k := by
  have hmod : k % 32 < 32 := Nat.mod_lt _ (by norm_num)
  have hval : rustShlU32 1 k = 2 ^ (k % 32) := by
    unfold rustShlU32
    rw [Nat.shiftLeft_eq, one_mul]
    exact Nat.mod_eq_of_lt (Nat.pow_lt_pow_right (by norm_num) hmod)
  refine ⟨hval, ?_, ?_⟩
  · rw [hval]
    have hdvd : 2 ^ 32 ∣ 2 ^ k := pow_dvd_pow 2 hk
    have h0 : 2 ^ k % 2 ^ 32 = 0 := Nat.mod_eq_zero_of_dvd hdvd
    have hpos : 0 < 2 ^ (k % 32) := Nat.two_pow_pos _
    omega
  · rw [hval]
    have hlt : 2 ^ (k % 32) < 2 ^ k := Nat.pow_lt_pow_right (by norm_num) (by omega)
    omega

/-- Witness for C10 (amended) at `k = 32`. -/
theorem spec_C10_masked_shift_witness :
    rustShlU32 1 32 = 2 ^ (32 % 32) ∧
    rustShlU32 1 32 ≠ 2 ^ 32 % 2 ^ 32 ∧
    rustShlU32 1 32 ≠ 2 ^ 32 :=
  spec_C10_masked_shift 32 (by decide)

/-- C5 counterexample: invoked with only `(destination_prefix, num_vars)`
the program does not sample scalars and write the SRS — it interprets the
first argument as a ceremony source path, attempts to open it (file I/O),
aborts when it does not exist, and creates nothing. -/
theorem spec_C5_counterexample :
    runMain (fun _ => none) ["gen", "out", "3"]
      = RunResult.panicked "Couldn't open file" [TraceEvent.openRead "out"]
    ∧ (runMain (fun _ => none) ["gen", "out", "3"]).createdFiles = [] := by
  constructor
  · decide
  · decide

/-- C5 (amended): there is no direct-sampling mode; with a two-argument
invocation `(destination_prefix, num_vars)` the destination prefix is
consumed as the ceremony source path, the program performs an open attempt
on it, and (when no such file exists) panics before writing anything. -/
theorem spec_C5_no_sampling_mode (fs : String → Option (List Nat))
    (a0 dstArg nvArg : String) (hfs : fs dstArg = none) :
    runMain fs [a0, dstArg, nvArg]
      = .panicked "Couldn't open file" [TraceEvent.openRead dstArg]
    ∧ (runMain fs [a0, dstArg, nvArg]).createdFiles = [] := by
  have h := runMain_open_fail fs [a0, dstArg, nvArg] dstArg nvArg rfl rfl hfs
  exact ⟨h, by rw [h]; rfl⟩

/-- Witness for C5 (amended). -/
theorem spec_C5_no_sampling_mode_witness :
    runMain (fun _ => none) ["gen", "out", "7"]
      = RunResult.panicked "Couldn't open file" [TraceEvent.openRead "out"]
    ∧ (runMain (fun _ => none) ["gen", "out", "7"]).createdFiles = [] :=
  spec_C5_no_sampling_mode (fun _ => none) "gen" "out" "7" rfl

/-- C4 counterexample: with a source file declaring `k = 0` (capacity 1)
and requested `num_vars = 2`, the program aborts through the `assert` (a
panic, not a recoverable error value), and the message reports only the
requested `num_vars` — the capacity `1` appears nowhere in it ('1' is not
among its characters). -/
theorem spec_C4_counterexample :
    runMain fsA ["gen", "srs", "out", "2"]
      = RunResult.panicked "Source file size not enough for desired k: Some(2)"
          [TraceEvent.openRead "srs", TraceEvent.readAt 16 8, TraceEvent.readAt 24 4]
    ∧ ¬ ('1' ∈ "Source file size not enough for desired k: Some(2)".data) := by
  constructor
  · decide
  · decide

/-- C4 (amended): when the computed capacity `1 << k` is below the
requested `num_vars`, the program panics via the capacity `assert` with a
message reporting only the requested `num_vars` (as the debug form of the
optional third argument), after reading only the header-size and `k`
fields — before touching the point records and before any computation —
and creates no output file. -/
theorem spec_C4_capacity_assert (fs : String → Option (List Nat)) (args : List String)
    (src dst s3 : String) (file hsBytes kBytes : List Nat) (numVars : Nat)
    (h1 : args.get? 1 = some src) (h2 : args.get? 2 = some dst)
    (h3 : args.get? 3 = some s3) (hp : parseU32 s3 = some numVars)
    (hf : fs src = some file)
    (hh : readBytes file 16 8 = some hsBytes)
    (hkb : readBytes file (16 + leValue hsBytes) 4 = some kBytes)
    (hcap : rustShlU32 1 (leValue kBytes) < numVars) :
    runMain fs args
      = .panicked
          ("Source file size not enough for desired k: Some(" ++ toString numVars ++ ")")
          [TraceEvent.openRead src, TraceEvent.readAt 16 8,
            TraceEvent.readAt (16 + leValue hsBytes) 4]
    ∧ (runMain fs args).createdFiles = [] := by
  have hoff := kOffset_eq (leValue hsBytes)
  have h := runMain_capacity_fail fs args src dst s3 file hsBytes kBytes numVars
    h1 h2 h3 hp hf hh (by rw [hoff]; exact hkb) hcap
  rw [hoff] at h
  exact ⟨h, by rw [h]; rfl⟩

/-- Witness for C4 (amended): `fileA` declares `k = 0`, so the capacity is
`1 < 2`. -/
theorem spec_C4_capacity_assert_witness :
    runMain fsA ["gen", "srs", "out", "2"]
      = RunResult.panicked
          ("Source file size not enough for desired k: Some(" ++ toString 2 ++ ")")
          [TraceEvent.openRead "srs", TraceEvent.readAt 16 8,
            TraceEvent.readAt (16 + leValue [8, 0, 0, 0, 0, 0, 0, 0]) 4]
    ∧ (runMain fsA ["gen", "srs", "out", "2"]).createdFiles = [] :=
  spec_C4_capacity_assert fsA ["gen", "srs", "out", "2"] "srs" "out" "2" fileA
    [8, 0, 0, 0, 0, 0, 0, 0] [0, 0, 0, 0] 2 rfl rfl rfl (by decide) (by decide)
    (by decide) (by decide) (by decide)

/-- C8 counterexample: with the third (`num_vars`) argument missing but a
readable source file present, the failure is only raised after the source
file has been opened and its header-size and `k` fields read — the event
trace of the aborted run is not empty, so the process did perform file I/O
before exiting. -/
theorem spec_C8_counterexample :
    runMain fsA ["gen", "srs", "out"]
      = RunResult.panicked "called `Option::unwrap()` on a `None` value"
          [TraceEvent.openRead "srs", TraceEvent.readAt 16 8, TraceEvent.readAt 24 4]
    ∧ (runMain fsA ["gen", "srs", "out"]).events ≠ [] := by
  constructor
  · decide
  · decide

/-- C8 (amended): a missing first or second argument is reported before any
file I/O; a missing or unparseable third (`num_vars`) argument, however, is
only detected after the source file has been opened and its header-size and
`k` fields read. -/
theorem spec_C8_usage_errors :
    (∀ (fs : String → Option (List Nat)) (args : List String),
      args.get? 1 = none →
        runMain fs args = .panicked "Please specify source file path to convert" []) ∧
    (∀ (fs : String → Option (List Nat)) (args : List String) (src : String),
      args.get? 1 = some src → args.get? 2 = none →
        runMain fs args
          = .panicked
              "Please specify destination file path prefix (will be appended with suffix k)"
              []) ∧
    (∀ (fs : String → Option (List Nat)) (args : List String) (src dst : String)
        (file hsBytes kBytes : List Nat),
      args.get? 1 = some src → args.get? 2 = some dst →
      (args.get? 3).bind parseU32 = none →
      fs src = some file →
      readBytes file 16 8 = some hsBytes →
      readBytes file (16 + leValue hsBytes) 4 = some kBytes →
        runMain fs args
          = .panicked "called `Option::unwrap()` on a `None` value"
              [TraceEvent.openRead src, TraceEvent.readAt 16 8,
                TraceEvent.readAt (16 + leValue hsBytes) 4]) := by
  refine ⟨runMain_no_src, runMain_no_dst, ?_⟩
  intro fs args src dst file hsBytes kBytes h1 h2 h3 hf hh hkb
  have hoff := kOffset_eq (leValue hsBytes)
  have h := runMain_arg3_fail fs args src dst file hsBytes kBytes h1 h2 h3 hf hh
    (by rw [hoff]; exact hkb)
  rw [hoff] at h
  exact h

/-- Witness for C8 (amended), on its third clause. -/
theorem spec_C8_usage_errors_witness :
    runMain fsA ["gen", "srs", "out"]
      = RunResult.panicked "called `Option::unwrap()` on a `None` value"
          [TraceEvent.openRead "srs", TraceEvent.readAt 16 8,
            TraceEvent.readAt (16 + leValue [8, 0, 0, 0, 0, 0, 0, 0]) 4] :=
  spec_C8_usage_errors.2.2 fsA ["gen", "srs", "out"] "srs" "out" fileA
    [8, 0, 0, 0, 0, 0, 0, 0] [0, 0, 0, 0] rfl rfl (by decide) (by decide) (by decide)
    (by decide)

/-! ### The successful extraction-and-generation run -/

theorem runMain_success_full (fs : String → Option (List Nat)) (args : List String)
    (src dst s3 : String) (file hsBytes kBytes : List Nat) (numVars : Nat) (d : Nat → Fr)
    (h1 : args.get? 1 = some src) (h2 : args.get? 2 = some dst)
    (h3 : args.get? 3 = some s3) (hp : parseU32 s3 = some numVars)
    (hf : fs src = some file)
    (hh : readBytes file HEADER_SIZE_OFFSET 8 = some hsBytes)
    (hkb : readBytes file (HEADER_OFFSET + leValue hsBytes - 8) 4 = some kBytes)
    (hnv : numVars < 2 ^ 31)
    (hcap : numVars ≤ rustShlU32 1 (leValue kBytes))
    (hfl : HEADER_OFFSET + leValue hsBytes + 12
        + 32 * (2 * rustShlU32 1 (leValue kBytes)) ≤ file.length)
    (hd : ∀ j, j < numVars →
      fromRepr ((file.drop (HEADER_OFFSET + leValue hsBytes + 12 + 32 * (2 * j))).take 32)
        = some (d j)) :
    runMain fs args
      = .success
          ([TraceEvent.openRead src, TraceEvent.readAt HEADER_SIZE_OFFSET 8,
            TraceEvent.readAt (HEADER_OFFSET + leValue hsBytes - 8) 4]
            ++ (List.range (2 * rustShlU32 1 (leValue kBytes))).map
                (fun i => TraceEvent.readAt (HEADER_OFFSET + leValue hsBytes + 12 + 32 * i) 32)
            ++ TraceEvent.createFile (dst ++ toString numVars)
              :: (srsTrace numVars ((List.range numVars).map d)).map TraceEvent.writeItem) := by
  have hrec := readRecords_success file (2 * rustShlU32 1 (leValue kBytes))
    (HEADER_OFFSET + leValue hsBytes + 12) (by omega)
  have hdec : decodeRandomSource
      ((List.range (2 * rustShlU32 1 (leValue kBytes))).map
        (fun i => (file.drop (HEADER_OFFSET + leValue hsBytes + 12 + 32 * i)).take 32))
      numVars = some ((List.range numVars).map d) := by
    apply decodeRandomSource_eq _ _ _ hnv
    intro j hj
    rw [get?_map_range _ _ _ (by omega), Option.some_bind]
    exact hd j hj
  exact runMain_success_eq fs args src dst s3 file hsBytes kBytes numVars _ _ _
    h1 h2 h3 hp hf hh hkb (by omega) hrec hdec

/-- C7: the extraction variant reads the 8-byte little-endian header size
at byte offset 16, reads the 4-byte little-endian `k` at offset
`16 + header_size`, seeks to offset `24 + header_size + 12` for the
point-record region, reads consecutive raw 32-byte records there, and
produces as the randomness sequence exactly the decodings of the
even-indexed records `0, 2, …, 2*num_vars - 2`, in order, discarding the
odd-indexed records; when the decodings succeed the result has length
`num_vars`. Stated for `num_vars < 2 ^ 31`, where the `u32` loop bound
`2 * num_vars` of line 67 does not wrap. -/
theorem spec_C7_extraction_layout (fs : String → Option (List Nat)) (args : List String)
    (src dst s3 : String) (file hsBytes kBytes : List Nat) (numVars : Nat) (d : Nat → Fr)
    (h1 : args.get? 1 = some src) (h2 : args.get? 2 = some dst)
    (h3 : args.get? 3 = some s3) (hp : parseU32 s3 = some numVars)
    (hf : fs src = some file)
    (hh : readBytes file 16 8 = some hsBytes)
    (hkb : readBytes file (16 + leValue hsBytes) 4 = some kBytes)
    (hnv : numVars < 2 ^ 31)
    (hcap : numVars ≤ rustShlU32 1 (leValue kBytes))
    (hfl : 24 + leValue hsBytes + 12
        + 32 * (2 * rustShlU32 1 (leValue kBytes)) ≤ file.length)
    (hd : ∀ j, j < numVars →
      fromRepr ((file.drop (24 + leValue hsBytes + 12 + 32 * (2 * j))).take 32)
        = some (d j)) :
    runMain fs args
      = .success
          ([TraceEvent.openRead src, TraceEvent.readAt 16 8,
            TraceEvent.readAt (16 + leValue hsBytes) 4]
            ++ (List.range (2 * rustShlU32 1 (leValue kBytes))).map
                (fun i => TraceEvent.readAt (24 + leValue hsBytes + 12 + 32 * i) 32)
            ++ TraceEvent.createFile (dst ++ toString numVars)
              :: (srsTrace numVars ((List.range numVars).map d)).map TraceEvent.writeItem)
      ∧ ((List.range numVars).map d).length = numVars := by
  have hoff := kOffset_eq (leValue hsBytes)
  have h := runMain_success_full fs args src dst s3 file hsBytes kBytes numVars d
    h1 h2 h3 hp hf hh (by rw [hoff]; exact hkb) hnv hcap hfl hd
  rw [hoff] at h
  exact ⟨h, by simp⟩

/-- Witness for C7 on `fileA` (`k = 0`, `num_vars = 1`, decoded scalar 7). -/
theorem spec_C7_extraction_layout_witness :
    runMain fsA ["gen", "srs", "out", "1"]
      = RunResult.success
          ([TraceEvent.openRead "srs", TraceEvent.readAt 16 8,
            TraceEvent.readAt (16 + leValue [8, 0, 0, 0, 0, 0, 0, 0]) 4]
            ++ (List.range (2 * rustShlU32 1 (leValue [0, 0, 0, 0]))).map
                (fun i =>
                  TraceEvent.readAt (24 + leValue [8, 0, 0, 0, 0, 0, 0, 0] + 12 + 32 * i) 32)
            ++ TraceEvent.createFile ("out" ++ toString 1)
              :: (srsTrace 1 ((List.range 1).map (fun _ => (7 : Fr)))).map TraceEvent.writeItem)
      ∧ ((List.range 1).map (fun _ => (7 : Fr))).length = 1 :=
  spec_C7_extraction_layout fsA ["gen", "srs", "out", "1"] "srs" "out" "1" fileA
    [8, 0, 0, 0, 0, 0, 0, 0] [0, 0, 0, 0] 1 (fun _ => (7 : Fr)) rfl rfl rfl (by decide)
    (by decide) (by decide) (by decide) (by decide) (by decide) (by decide)
    (by intro j hj; have hj0 : j = 0 := by omega
        subst hj0; decide)

/-- C3: a successful run creates exactly the file named by the destination
prefix concatenated with `num_vars` and writes, in order: `num_vars` as a
4-byte little-endian integer, the group-1 generator, every equality-basis
group-1 point in level-major then within-level order (level `i` occupying
the `2 ^ i` slots starting at flat offset `2 ^ i - 1`, for a total of
`2 ^ (num_vars + 1) - 1` points), the group-2 generator, and exactly
`num_vars` group-2 power points in randomness-sequence order. Stated for
`num_vars < 2 ^ 31`, where the `u32` selection bound `2 * num_vars` of
line 67 does not wrap. -/
theorem spec_C3_serializer_layout (fs : String → Option (List Nat)) (args : List String)
    (src dst s3 : String) (file hsBytes kBytes : List Nat) (numVars : Nat)
    (recEvs : List TraceEvent) (reprs : List (List Nat)) (randomSource : List Fr)
    (h1 : args.get? 1 = some src) (h2 : args.get? 2 = some dst)
    (h3 : args.get? 3 = some s3) (hp : parseU32 s3 = some numVars)
    (hf : fs src = some file)
    (hh : readBytes file HEADER_SIZE_OFFSET 8 = some hsBytes)
    (hkb : readBytes file (HEADER_OFFSET + leValue hsBytes - 8) 4 = some kBytes)
    (hnv : numVars < 2 ^ 31)
    (hcap : ¬ rustShlU32 1 (leValue kBytes) < numVars)
    (hrec : readRecords file (HEADER_OFFSET + leValue hsBytes + 12)
        (2 * rustShlU32 1 (leValue kBytes)) = (recEvs, some reprs))
    (hdec : decodeRandomSource reprs numVars = some randomSource) :
    (runMain fs args).createdFiles = [dst ++ toString numVars] ∧
    randomSource.length = numVars ∧
    srsTrace numVars randomSource
      = WriteItem.u32le numVars :: WriteItem.g1pt 1 ::
          ((buildEqs randomSource).flatten.map WriteItem.g1pt
            ++ WriteItem.g2pt 1 :: randomSource.map WriteItem.g2pt) ∧
    (buildEqs randomSource).flatten.length = 2 ^ (numVars + 1) - 1 ∧
    (∀ i, i ≤ numVars →
      ((buildEqs randomSource).flatten.drop (2 ^ i - 1)).take (2 ^ i)
        = (buildEqs randomSource).getD i []) ∧
    (randomSource.map WriteItem.g2pt).length = numVars := by
  have hlen : randomSource.length = numVars :=
    decodeRandomSource_length _ _ _ hnv hdec
  have hrun := runMain_success_eq fs args src dst s3 file hsBytes kBytes numVars
    recEvs reprs randomSource h1 h2 h3 hp hf hh hkb hcap hrec hdec
  refine ⟨?_, hlen, srsTrace_eq numVars randomSource hlen, ?_, ?_, by simp [hlen]⟩
  · rw [hrun]
    unfold RunResult.createdFiles RunResult.events
    rw [List.filterMap_append, List.filterMap_append]
    have he1 : List.filterMap TraceEvent.created?
        [TraceEvent.openRead src, TraceEvent.readAt HEADER_SIZE_OFFSET 8,
          TraceEvent.readAt (HEADER_OFFSET + leValue hsBytes - 8) 4] = [] := rfl
    have he2 : List.filterMap TraceEvent.created? recEvs = [] := by
      rw [List.filterMap_eq_nil_iff]
      intro e he
      exact readRecords_events_created file (2 * rustShlU32 1 (leValue kBytes))
        (HEADER_OFFSET + leValue hsBytes + 12) e (by rw [hrec]; exact he)
    have he3 : List.filterMap TraceEvent.created?
        ((srsTrace numVars randomSource).map TraceEvent.writeItem) = [] := by
      rw [List.filterMap_eq_nil_iff]
      intro e he
      obtain ⟨w, _, rfl⟩ := List.mem_map.mp he
      rfl
    rw [he1, he2]
    simp only [List.filterMap_cons, List.nil_append]
    rw [he3]
    rfl
  · rw [buildEqs_flatten_length, hlen]
  · intro i hi
    exact buildEqs_flatten_slice randomSource i (by rw [hlen]; exact hi)

/-- Witness for C3 on `fileA` (`k = 0`, `num_vars = 1`). -/
theorem spec_C3_serializer_layout_witness :
    (runMain fsA ["gen", "srs", "out", "1"]).createdFiles = ["out" ++ toString 1] :=
  (spec_C3_serializer_layout fsA ["gen", "srs", "out", "1"] "srs" "out" "1" fileA
    [8, 0, 0, 0, 0, 0, 0, 0] [0, 0, 0, 0] 1
    [TraceEvent.readAt 44 32, TraceEvent.readAt 76 32]
    [7 :: List.replicate 31 0, List.replicate 32 0] [(7 : Fr)]
    rfl rfl rfl (by decide) (by decide) (by decide) (by decide) (by decide) (by decide)
    (by decide) (by decide)).1

/-- C9: the record loop always demands the entire declared pool: when the
point-record region holds fewer than `2 * 2 ^ k` full 32-byte records, the
run aborts with a read error — even when the `2 * num_vars` records that
the selection actually consumes are all present. -/
theorem spec_C9_whole_pool_read (fs : String → Option (List Nat)) (args : List String)
    (src dst s3 : String) (file hsBytes kBytes : List Nat) (numVars : Nat)
    (h1 : args.get? 1 = some src) (h2 : args.get? 2 = some dst)
    (h3 : args.get? 3 = some s3) (hp : parseU32 s3 = some numVars)
    (hf : fs src = some file)
    (hh : readBytes file 16 8 = some hsBytes)
    (hkb : readBytes file (16 + leValue hsBytes) 4 = some kBytes)
    (hk32 : leValue kBytes < 32)
    (hcap : numVars ≤ 2 ^ leValue kBytes)
    (hshort : file.length < 24 + leValue hsBytes + 12 + 32 * (2 * 2 ^ leValue kBytes)) :
    (runMain fs args).panicMsg = some "called `Result::unwrap()` on an `Err` value" := by
  have hoff := kOffset_eq (leValue hsBytes)
  have hsh : rustShlU32 1 (leValue kBytes) = 2 ^ leValue kBytes :=
    rustShlU32_one_eq_pow _ hk32
  have hpos : 0 < 2 * rustShlU32 1 (leValue kBytes) := by
    rw [hsh]
    have := Nat.two_pow_pos (leValue kBytes)
    omega
  have hfail := readRecords_fail file (2 * rustShlU32 1 (leValue kBytes))
    (HEADER_OFFSET + leValue hsBytes + 12) hpos (by rw [hsh]; exact hshort)
  cases hr : readRecords file (HEADER_OFFSET + leValue hsBytes + 12)
      (2 * rustShlU32 1 (leValue kBytes)) with
  | mk evs res =>
    rw [hr] at hfail
    simp only at hfail
    subst hfail
    have hcap' : ¬ rustShlU32 1 (leValue kBytes) < numVars := by
      rw [hsh]
      omega
    have h := runMain_records_fail fs args src dst s3 file hsBytes kBytes numVars evs
      h1 h2 h3 hp hf hh (by rw [hoff]; exact hkb) hcap' hr
    rw [h]
    rfl

/-- Witness for C9 on `fileB` (`k = 1` declares 4 records, only 2½ are
present; `num_vars = 1` needs just 2). -/
theorem spec_C9_whole_pool_read_witness :
    (runMain fsB ["gen", "srs", "out", "1"]).panicMsg
      = some "called `Result::unwrap()` on an `Err` value" :=
  spec_C9_whole_pool_read fsB ["gen", "srs", "out", "1"] "srs" "out" "1" fileB
    [8, 0, 0, 0, 0, 0, 0, 0] [1, 0, 0, 0] 1 rfl rfl rfl (by decide) (by decide)
    (by decide) (by decide) (by decide) (by decide) (by decide)

end HyperplonkSrs
